import Mathlib

/-!
Shallow embedding of the Items CRUD service (files `database.py`, `schemas.py`,
`storage.py`, `main.py`).

The persisted table `items` (class `ItemModel` in `database.py`) is modelled as a
list of rows together with the state of the auto-increment id sequence
(`nextId`): PostgreSQL sequences hand out ids 1, 2, 3, ... and never reuse a
value, even after a row is deleted.  Column `name` is declared `nullable=False`,
so a flush that would store NULL in `name` raises an integrity error; this is
modelled by `update_item` returning `Except.error DBError.notNullViolation`.

Strings are handled at the codepoint level: Python `str.lower()` is embedded as
a character-wise `Char.toLower` (`pyLower`), Python `str.strip()` as dropping
whitespace from both ends (`pyStrip`), and the Python substring test
`a in b` as `hasSub`.
-/

namespace ItemsAPI

/-- A row of the `items` table (`ItemModel` in `database.py`):
`id` generated primary key, `name` non-null text, `description` nullable text. -/
structure ItemModel where
  id : Nat
  name : String
  description : Option String
deriving DecidableEq, Repr

/-- `ItemResponse` in `schemas.py`: the read view `{id, name, description}`. -/
structure ItemResponse where
  id : Nat
  name : String
  description : Option String
deriving DecidableEq, Repr

/-- Construction `ItemResponse(id=item.id, name=item.name, description=item.description)`
performed by every storage function. -/
def ItemModel.toResponse (r : ItemModel) : ItemResponse :=
  ⟨r.id, r.name, r.description⟩

/-- `ItemCreate` in `schemas.py`: `name` required, `description` optional. -/
structure ItemCreate where
  name : String
  description : Option String
deriving DecidableEq, Repr

/-- The pydantic field constraints on `ItemCreate`:
`name` 1..255 characters, `description` at most 1000 characters when present. -/
def ItemCreate.validB (c : ItemCreate) : Bool :=
  1 ≤ c.name.length && c.name.length ≤ 255 &&
    (match c.description with
     | none => true
     | some d => d.length ≤ 1000)

/-- Pydantic set-tracking for one field of a partial-update model:
a field is either absent from the request body (`unset`) or explicitly
supplied with a value (`set v`); `model_dump(exclude_unset=True)` keeps
exactly the `set` fields. -/
inductive FieldUpd (α : Type) where
  | unset : FieldUpd α
  | set (v : α) : FieldUpd α
deriving DecidableEq, Repr

/-- `ItemUpdate` in `schemas.py`: both fields optional and of type
`str | None`, so a supplied value may itself be the JSON null. -/
structure ItemUpdate where
  name : FieldUpd (Option String)
  description : FieldUpd (Option String)
deriving DecidableEq, Repr

/-- The pydantic validation of `ItemUpdate` as declared in `schemas.py`:
constraints apply to the `str` branch of `str | None`, and an explicit null
passes validation for either field. -/
def ItemUpdate.validB (u : ItemUpdate) : Bool :=
  (match u.name with
   | .unset => true
   | .set none => true
   | .set (some s) => 1 ≤ s.length && s.length ≤ 255) &&
  (match u.description with
   | .unset => true
   | .set none => true
   | .set (some d) => d.length ≤ 1000)

/-- The update inputs of the spec data model (section 3): `name` optional and,
when present, a string of 1..255 characters (the spec never supplies null for
`name`); `description` optional, null or at most 1000 characters. -/
def ItemUpdate.specValid (u : ItemUpdate) : Bool :=
  (match u.name with
   | .unset => true
   | .set none => false
   | .set (some s) => 1 ≤ s.length && s.length ≤ 255) &&
  (match u.description with
   | .unset => true
   | .set none => true
   | .set (some d) => d.length ≤ 1000)

/-- State of the database: the rows of the `items` table plus the next value
of the id sequence backing the auto-increment primary key. -/
structure DB where
  items : List ItemModel
  nextId : Nat
deriving DecidableEq, Repr

/-- The freshly created schema: no rows, sequence at 1. -/
def emptyDB : DB := ⟨[], 1⟩

/-- Errors raised by the database engine during a flush; `name` is declared
`nullable=False`, so storing NULL in it violates the NOT NULL constraint. -/
inductive DBError where
  | notNullViolation
deriving DecidableEq, Repr

/-- The `ORDER BY id` comparison used by `get_all_items`. -/
def idLE (a b : ItemModel) : Prop := a.id ≤ b.id

instance : DecidableRel idLE := fun a b => Nat.decLe a.id b.id

instance : IsTotal ItemModel idLE := ⟨fun a b => Nat.le_total a.id b.id⟩

instance : IsTrans ItemModel idLE := ⟨fun _ _ _ => Nat.le_trans⟩

/-- `SELECT * FROM items WHERE id = :item_id` with `scalar_one_or_none()`:
the row with the given primary key, if any. -/
def findRow (items : List ItemModel) (item_id : Nat) : Option ItemModel :=
  items.find? (fun it => it.id == item_id)

/-- `get_all_items` in `storage.py`: `SELECT * FROM items ORDER BY id`,
each row mapped to an `ItemResponse`. -/
def get_all_items (db : DB) : List ItemResponse :=
  (List.insertionSort idLE db.items).map ItemModel.toResponse

/-- `get_item_by_id` in `storage.py`: look the row up by primary key and
return its view, or `none` when absent. -/
def get_item_by_id (db : DB) (item_id : Nat) : Option ItemResponse :=
  (findRow db.items item_id).map ItemModel.toResponse

/-- `create_item` in `storage.py`: insert a new row (the id sequence assigns
`db.nextId`), flush, refresh, and return the persisted view. -/
def create_item (db : DB) (item : ItemCreate) : ItemResponse × DB :=
  let row : ItemModel := ⟨db.nextId, item.name, item.description⟩
  (row.toResponse, ⟨db.items ++ [row], db.nextId + 1⟩)

/-- The in-place mutation of the found row performed by the `setattr` loop of
`update_item`: the row with the given id now holds `row'`, everything else is
untouched, and the id sequence does not move. -/
def replaceState (db : DB) (item_id : Nat) (row' : ItemModel) : DB :=
  ⟨db.items.map (fun it => if it.id == item_id then row' else it), db.nextId⟩

/-- `update_item` in `storage.py`: locate the row; when absent return `None`
without touching anything; otherwise assign exactly the fields present in
`model_dump(exclude_unset=True)` onto the row, flush, refresh, and return the
refreshed view.  A flush that would store NULL in the non-nullable `name`
column raises an integrity error. -/
def update_item (db : DB) (item_id : Nat) (item : ItemUpdate) :
    Except DBError (Option ItemResponse × DB) :=
  match findRow db.items item_id with
  | none => .ok (none, db)
  | some row =>
      let newName : Option String :=
        match item.name with
        | .unset => some row.name
        | .set v => v
      let newDesc : Option String :=
        match item.description with
        | .unset => row.description
        | .set v => v
      match newName with
      | none => .error .notNullViolation
      | some nm =>
          let row' : ItemModel := ⟨row.id, nm, newDesc⟩
          .ok (some row'.toResponse, replaceState db item_id row')

/-- `delete_item` in `storage.py`: look the row up first; return `False` when
absent (no mutation), otherwise `DELETE FROM items WHERE id = :item_id`,
flush, and return `True`. -/
def delete_item (db : DB) (item_id : Nat) : Bool × DB :=
  match findRow db.items item_id with
  | none => (false, db)
  | some _ =>
      (true, ⟨db.items.filter (fun it => !(it.id == item_id)), db.nextId⟩)

/-! ### Handler-level string operations (`main.py`) -/

/-- Python `str.lower()`, character by character. -/
def pyLower (s : String) : String := ⟨s.data.map Char.toLower⟩

/-- Python `str.strip()`: drop whitespace from both ends. -/
def pyStrip (s : String) : String :=
  ⟨((s.data.dropWhile Char.isWhitespace).reverse.dropWhile
      Char.isWhitespace).reverse⟩

/-- Does `hay` start with `needle`? (helper for the substring test). -/
def startsWithChars : List Char → List Char → Bool
  | [], _ => true
  | _ :: _, [] => false
  | a :: as, b :: bs => a == b && startsWithChars as bs

/-- Python `needle in hay` on strings: `needle` occurs contiguously in `hay`. -/
def hasSub (needle : List Char) : List Char → Bool
  | [] => startsWithChars needle []
  | c :: cs => startsWithChars needle (c :: cs) || hasSub needle cs

/-- The filter test of `GET /items`: `name_lower in item.name.lower()`
with `name_lower = name.lower()`. -/
def nameMatches (filt : String) (itemName : String) : Bool :=
  hasSub (pyLower filt).data (pyLower itemName).data

/-- The filtering stage of `get_items` as the spec describes it: when `name`
is supplied and non-blank, keep the items whose name contains the filter text
case-insensitively; otherwise keep everything. -/
def applyNameFilter (name : Option String) (items : List ItemResponse) :
    List ItemResponse :=
  match name with
  | none => items
  | some n =>
      if pyStrip n ≠ "" then items.filter (fun it => nameMatches n it.name)
      else items

/-- The body of handler `get_items` in `main.py`: fetch the full ordered list,
filter by `name` when it is supplied and `name.strip()` is truthy, then take
the Python slice `items[offset : offset + limit]`. -/
def get_items (db : DB) (limit offset : Nat) (name : Option String) :
    List ItemResponse :=
  let items := get_all_items db
  let filtered : List ItemResponse :=
    match name with
    | some n =>
        if pyStrip n ≠ "" then
          items.filter (fun it => nameMatches n it.name)
        else items
    | none => items
  (filtered.drop offset).take limit

/-! ### Route layer (`main.py`)

FastAPI validates path and query parameters (`Path(ge=1)`, `Query(ge=1, le=100)`,
`Query(ge=0)`) and the request body against the pydantic schema before the
endpoint function — and hence any storage call — runs; a violation produces a
422 response.  Each route below returns the HTTP outcome, and the mutating
routes also return the database state after the request (the unit of work
commits on success and rolls back when an exception escapes the handler). -/

/-- Outcome of one HTTP request: a success body with its status code, or an
error status code. -/
inductive RouteResult (α : Type) where
  | ok (status : Nat) (body : α) : RouteResult α
  | err (status : Nat) : RouteResult α
deriving DecidableEq, Repr

/-- `GET /items`: `limit` must lie in 1..100 and `offset` must be at least 0
(else 422, before any storage access); otherwise the handler body runs. -/
def get_items_route (db : DB) (limit offset : Int) (name : Option String) :
    RouteResult (List ItemResponse) :=
  if limit < 1 || 100 < limit || offset < 0 then .err 422
  else .ok 200 (get_items db limit.toNat offset.toNat name)

/-- `GET /items/{item_id}` (`get_item` in `main.py`): `item_id` must satisfy
`ge=1` (else 422, before any storage access); a missing row is a 404. -/
def get_item_route (db : DB) (item_id : Int) : RouteResult ItemResponse :=
  if item_id < 1 then .err 422
  else
    match get_item_by_id db item_id.toNat with
    | none => .err 404
    | some it => .ok 200 it

/-- The raw JSON body of `POST /items` before pydantic validation: each field
either absent or a string (shape errors beyond that are also 422). -/
structure RawItemCreate where
  name : Option String
  description : Option String
deriving DecidableEq, Repr

/-- Pydantic validation of the `POST /items` body against `ItemCreate`:
`name` required with 1..255 characters, `description` optional with at most
1000 characters. -/
def parseItemCreate (r : RawItemCreate) : Option ItemCreate :=
  match r.name with
  | none => none
  | some nm =>
      if 1 ≤ nm.length ∧ nm.length ≤ 255 then
        match r.description with
        | none => some ⟨nm, none⟩
        | some d => if d.length ≤ 1000 then some ⟨nm, some d⟩ else none
      else none

/-- `POST /items` (`create_new_item` in `main.py`): body validation failures
are 422 before any storage access; otherwise the item is created and returned
with status 201, and the unit of work commits. -/
def create_item_route (db : DB) (body : RawItemCreate) :
    RouteResult ItemResponse × DB :=
  match parseItemCreate body with
  | none => (.err 422, db)
  | some c =>
      let res := create_item db c
      (.ok 201 res.1, res.2)

/-- `PUT /items/{item_id}` (`update_existing_item` in `main.py`): `item_id`
must satisfy `ge=1` and the body must validate against `ItemUpdate` (else
422, before any storage access); a missing row is a 404; an integrity error
raised by the flush escapes the handler, the unit of work rolls back, and the
framework answers 500. -/
def update_item_route (db : DB) (item_id : Int) (body : ItemUpdate) :
    RouteResult ItemResponse × DB :=
  if item_id < 1 then (.err 422, db)
  else if !body.validB then (.err 422, db)
  else
    match update_item db item_id.toNat body with
    | .error _ => (.err 500, db)
    | .ok (none, _) => (.err 404, db)
    | .ok (some it, db') => (.ok 200 it, db')

/-- `DELETE /items/{item_id}` (`delete_existing_item` in `main.py`):
`item_id` must satisfy `ge=1` (else 422, before any storage access); a
`False` sentinel from the repository is a 404, a `True` sentinel a 204 with
empty body. -/
def delete_item_route (db : DB) (item_id : Int) : RouteResult Unit × DB :=
  if item_id < 1 then (.err 422, db)
  else
    let res := delete_item db item_id.toNat
    if res.1 then (.ok 204 (), res.2) else (.err 404, db)

/-! ### Unit-of-work provider (`get_db` in `database.py`)

The dependency opens a session, yields it to the request body, commits after a
normal return, rolls back and re-raises when any exception escapes the body
(including a failing commit), and closes the session in a `finally` block.
The scoped body is modelled by its outcome `Except ε α`; `commitErr` models
whether `session.commit()` itself would raise.  The returned event list
records the session operations in order. -/

/-- Session operations issued by `get_db`. -/
inductive SessionEvent where
  | commit : SessionEvent
  | rollback : SessionEvent
  | close : SessionEvent
deriving DecidableEq, Repr

/-- Control flow of `get_db`: `try: yield; commit / except: rollback; raise /
finally: close`. -/
def get_db {ε α : Type} (commitErr : Option ε) (body : Except ε α) :
    Except ε α × List SessionEvent :=
  match body with
  | .error e => (.error e, [.rollback, .close])
  | .ok a =>
      match commitErr with
      | none => (.ok a, [.commit, .close])
      | some e => (.error e, [.commit, .rollback, .close])

/-! ### Operation traces

A run of the service is a sequence of mutating repository calls, each wrapped
in its own unit of work, starting from the freshly created schema.  An update
whose flush violates the NOT NULL constraint on `name` raises, so its
transaction rolls back and the state is unchanged. -/

/-- One mutating repository call. -/
inductive Op where
  | create (c : ItemCreate) : Op
  | update (id : Nat) (u : ItemUpdate) : Op
  | delete (id : Nat) : Op
deriving DecidableEq, Repr

/-- The input of the call passed pydantic validation at the route. -/
def Op.validB : Op → Bool
  | .create c => c.validB
  | .update _ u => u.validB
  | .delete _ => true

/-- Effect of one call on the database state; a raised integrity error makes
the unit of work roll the transaction back. -/
def applyOp (db : DB) : Op → DB
  | .create c => (create_item db c).2
  | .update id u =>
      match update_item db id u with
      | .ok res => res.2
      | .error _ => db
  | .delete id => (delete_item db id).2

/-- State after a sequence of calls starting from the fresh schema. -/
def runOps (ops : List Op) : DB := ops.foldl applyOp emptyDB

/-- The ids handed out by the id sequence along a trace, in order. -/
def assignedIdsFrom (db : DB) : List Op → List Nat
  | [] => []
  | op :: ops =>
      match op with
      | .create c => (create_item db c).1.id :: assignedIdsFrom (applyOp db op) ops
      | _ => assignedIdsFrom (applyOp db op) ops

/-- The ids handed out along a trace from the fresh schema. -/
def assignedIds (ops : List Op) : List Nat := assignedIdsFrom emptyDB ops

/-- Well-formedness of a database state: the sequence is at least 1, rows are
strictly sorted by id, and every row has a positive id below the sequence
value and a non-empty name. -/
def DB.WF (db : DB) : Prop :=
  1 ≤ db.nextId ∧
  (db.items.map ItemModel.id).Pairwise (· < ·) ∧
  ∀ it ∈ db.items, 1 ≤ it.id ∧ it.id < db.nextId ∧ 1 ≤ it.name.length

/-- The view `update_item` returns for an existing record: fields explicitly
supplied by the partial input are assigned, omitted fields keep the stored
value (for `name`, an explicit null is read back as the stored name; that
input never reaches a successful flush). -/
def appliedView (r : ItemResponse) (u : ItemUpdate) : ItemResponse :=
  ⟨r.id,
   (match u.name with
    | .unset => some r.name
    | .set v => v).getD r.name,
   match u.description with
   | .unset => r.description
   | .set v => v⟩

/-- Names of the 15 items of the pagination-with-filtering example. -/
def names15 : List String :=
  ["item-1", "item-2", "item-3", "item-4", "item-5", "item-6", "item-7",
   "item-8", "item-9", "item-10", "item-11", "item-12", "item-13", "item-14",
   "item-15"]

/-- Creation calls for the 15 example items. -/
def ops15 : List Op := names15.map (fun nm => Op.create ⟨nm, none⟩)

/-- Database holding `item-1` .. `item-15` with ids 1..15. -/
def db15 : DB := runOps ops15

/-- A small concrete database state used to instantiate the theorems. -/
def dbW : DB :=
  ⟨[⟨1, "Apple", some "red"⟩, ⟨2, "apple pie", none⟩, ⟨3, "Banana", none⟩], 4⟩

/-- A small concrete trace used to instantiate the trace theorems. -/
def opsW : List Op :=
  [Op.create ⟨"a", none⟩, Op.delete 1, Op.create ⟨"b", some "d"⟩,
   Op.update 2 ⟨FieldUpd.set (some "b2"), FieldUpd.unset⟩]

/-- A concrete creation input used to instantiate the theorems. -/
def cW : ItemCreate := ⟨"c", none⟩

/-! ### Helper lemmas about row lookup -/

theorem findRow_cons (a : ItemModel) (l : List ItemModel) (n : Nat) :
    findRow (a :: l) n = if a.id == n then some a else findRow l n := by
  cases h : a.id == n <;> simp [findRow, List.find?_cons, h]

theorem findRow_eq_none {items : List ItemModel} {n : Nat} :
    findRow items n = none ↔ ∀ it ∈ items, it.id ≠ n := by
  simp [findRow, List.find?_eq_none]

theorem findRow_some_id {items : List ItemModel} {n : Nat} {row : ItemModel}
    (h : findRow items n = some row) : row.id = n := by
  simpa using List.find?_some h

theorem findRow_some_mem {items : List ItemModel} {n : Nat} {row : ItemModel}
    (h : findRow items n = some row) : row ∈ items :=
  List.mem_of_find?_eq_some h

theorem findRow_append_of_lt {items : List ItemModel} {n : Nat}
    (h : ∀ it ∈ items, it.id < n) {row : ItemModel} (hrow : row.id = n) :
    findRow (items ++ [row]) n = some row := by
  have h0 : List.find? (fun it => it.id == n) items = none :=
    List.find?_eq_none.mpr
      (fun it hit => by simpa using Nat.ne_of_lt (h it hit))
  simp [findRow, List.find?_append, h0, List.find?_cons, hrow]

theorem findRow_replace_some {items : List ItemModel} {n : Nat}
    {row row' : ItemModel} (hfind : findRow items n = some row)
    (h' : row'.id = n) :
    findRow (items.map fun it => if it.id == n then row' else it) n
      = some row' := by
  induction items with
  | nil => simp [findRow] at hfind
  | cons a l ih =>
      rw [findRow_cons] at hfind
      by_cases ha : a.id = n
      · simp only [List.map_cons, if_pos (show (a.id == n) = true by simpa using ha)]
        rw [findRow_cons, if_pos (by simpa using h')]
      · have hb : (a.id == n) = false := by simpa using ha
        rw [hb] at hfind
        simp only [List.map_cons, hb, Bool.false_eq_true, if_false]
        rw [findRow_cons, hb, if_neg (by simp)]
        exact ih hfind

theorem findRow_replace_none {items : List ItemModel} {n : Nat}
    {row' : ItemModel} (hfind : findRow items n = none) :
    (items.map fun it => if it.id == n then row' else it) = items := by
  rw [findRow_eq_none] at hfind
  conv_rhs => rw [← List.map_id items]
  refine List.map_congr_left (fun it hit => ?_)
  have hb : (it.id == n) = false := by simpa using hfind it hit
  simp [hb]

theorem findRow_replace_other {items : List ItemModel} {n j : Nat}
    (hne : j ≠ n) {row' : ItemModel} (h' : row'.id = n) :
    findRow (items.map fun it => if it.id == n then row' else it) j
      = findRow items j := by
  induction items with
  | nil => simp
  | cons a l ih =>
      by_cases ha : a.id = n
      · have haj : (a.id == j) = false := by
          simp only [beq_eq_false_iff_ne, ne_eq, ha]
          exact fun hc => hne hc.symm
        have hrj : (row'.id == j) = false := by
          simp only [beq_eq_false_iff_ne, ne_eq, h']
          exact fun hc => hne hc.symm
        simp only [List.map_cons, if_pos (show (a.id == n) = true by simpa using ha)]
        rw [findRow_cons, hrj, findRow_cons, haj]
        simp only [Bool.false_eq_true, if_false]
        exact ih
      · have hb : (a.id == n) = false := by simpa using ha
        simp only [List.map_cons, hb, Bool.false_eq_true, if_false]
        rw [findRow_cons, findRow_cons]
        cases hc : (a.id == j) with
        | true => simp
        | false => simpa using ih

theorem findRow_filter_self (items : List ItemModel) (n : Nat) :
    findRow (items.filter fun it => !(it.id == n)) n = none := by
  rw [findRow_eq_none]
  intro it hit
  have := (List.mem_filter.mp hit).2
  simpa using this

theorem findRow_filter_other {items : List ItemModel} {n j : Nat}
    (hne : j ≠ n) :
    findRow (items.filter fun it => !(it.id == n)) j = findRow items j := by
  induction items with
  | nil => simp
  | cons a l ih =>
      by_cases ha : a.id = n
      · have haj : (a.id == j) = false := by
          simp only [beq_eq_false_iff_ne, ne_eq, ha]
          exact fun hc => hne hc.symm
        rw [List.filter_cons, if_neg (by simp [ha]), findRow_cons, haj]
        simp only [Bool.false_eq_true, if_false]
        exact ih
      · have hb : (!(a.id == n)) = true := by simpa using ha
        rw [List.filter_cons, if_pos hb, findRow_cons, findRow_cons]
        cases hc : (a.id == j) with
        | true => simp
        | false => simpa using ih

theorem findRow_unique {items : List ItemModel}
    (hnd : (items.map ItemModel.id).Pairwise (· < ·)) {n : Nat}
    {row : ItemModel} (h : findRow items n = some row) :
    ∀ it ∈ items, it.id = n → it = row := by
  have hnodup : (items.map ItemModel.id).Nodup :=
    hnd.imp (fun hab => Nat.ne_of_lt hab)
  intro it hit hid
  exact List.inj_on_of_nodup_map hnodup hit (findRow_some_mem h)
    (by rw [hid, findRow_some_id h])

theorem filter_eq_single :
    ∀ {items : List ItemModel},
      (items.map ItemModel.id).Pairwise (· < ·) →
      ∀ {n : Nat} {row : ItemModel}, findRow items n = some row →
        items.filter (fun it => it.id == n) = [row] := by
  intro items
  induction items with
  | nil => intro _ n row h; simp [findRow] at h
  | cons a l ih =>
      intro hnd n row h
      rw [List.map_cons, List.pairwise_cons] at hnd
      obtain ⟨hlt, htl⟩ := hnd
      rw [findRow_cons] at h
      by_cases ha : a.id = n
      · rw [if_pos (by simpa using ha)] at h
        have har : a = row := by injection h
        subst har
        have hnone : l.filter (fun it => it.id == n) = [] := by
          rw [List.filter_eq_nil_iff]
          intro it hit
          have h1 : a.id < it.id := hlt it.id (List.mem_map_of_mem ItemModel.id hit)
          simp only [beq_iff_eq]
          intro hc
          rw [hc, ha] at h1
          exact Nat.lt_irrefl n h1
        rw [List.filter_cons, if_pos (by simpa using ha), hnone]
      · have hb : (a.id == n) = false := by simpa using ha
        rw [hb] at h
        simp only [Bool.false_eq_true, if_false] at h
        rw [List.filter_cons, hb]
        simpa using ih htl h

/-! ### Well-formedness preservation -/

theorem WF_emptyDB : emptyDB.WF := by
  refine ⟨Nat.le_refl 1, ?_, ?_⟩ <;> simp [emptyDB]

theorem WF_create {db : DB} (h : db.WF) {c : ItemCreate}
    (hc : c.validB = true) : (create_item db c).2.WF := by
  obtain ⟨h1, h2, h3⟩ := h
  have hname : 1 ≤ c.name.length := by
    simp only [ItemCreate.validB, Bool.and_eq_true, decide_eq_true_eq] at hc
    exact hc.1.1
  refine ⟨Nat.le_succ_of_le h1, ?_, ?_⟩
  · simp only [create_item, List.map_append, List.map_cons, List.map_nil]
    rw [List.pairwise_append]
    refine ⟨h2, List.pairwise_singleton _ _, ?_⟩
    intro x hx y hy
    simp only [List.mem_singleton] at hy
    subst hy
    obtain ⟨it, hit, rfl⟩ := List.mem_map.mp hx
    exact (h3 it hit).2.1
  · intro it hit
    simp only [create_item, List.mem_append, List.mem_singleton] at hit
    rcases hit with hit | rfl
    · obtain ⟨ha, hb, hc'⟩ := h3 it hit
      exact ⟨ha, Nat.lt_succ_of_lt hb, hc'⟩
    · exact ⟨h1, Nat.lt_succ_self _, hname⟩

theorem WF_replace {db : DB} (h : db.WF) {n : Nat} {row : ItemModel}
    (hfind : findRow db.items n = some row) {nm : String}
    (hnm : 1 ≤ nm.length) (newDesc : Option String) :
    DB.WF (replaceState db n ⟨row.id, nm, newDesc⟩) := by
  show DB.WF ⟨db.items.map
      (fun it => if it.id == n then (⟨row.id, nm, newDesc⟩ : ItemModel) else it),
    db.nextId⟩
  obtain ⟨h1, h2, h3⟩ := h
  have hrow := findRow_some_id hfind
  have hid : ∀ it ∈ db.items,
      (if it.id == n then (⟨row.id, nm, newDesc⟩ : ItemModel) else it).id
        = it.id := by
    intro it hit
    by_cases hc : it.id = n
    · simp only [if_pos (show (it.id == n) = true by simpa using hc)]
      rw [hrow, hc]
    · simp [show (it.id == n) = false by simpa using hc]
  refine ⟨h1, ?_, ?_⟩
  · rw [List.map_map,
      show (ItemModel.id ∘ fun it =>
          if it.id == n then (⟨row.id, nm, newDesc⟩ : ItemModel) else it)
        = fun it =>
          (if it.id == n then (⟨row.id, nm, newDesc⟩ : ItemModel) else it).id
        from rfl,
      List.map_congr_left hid]
    exact h2
  · intro it hit
    obtain ⟨a, ha, rfl⟩ := List.mem_map.mp hit
    by_cases hc : a.id = n
    · simp only [if_pos (show (a.id == n) = true by simpa using hc)]
      have hrmem := h3 row (findRow_some_mem hfind)
      exact ⟨hrmem.1, hrmem.2.1, hnm⟩
    · simp only [show (a.id == n) = false by simpa using hc, Bool.false_eq_true,
        if_false]
      exact h3 a ha

theorem WF_update {db : DB} (h : db.WF) {n : Nat} {u : ItemUpdate}
    (hu : u.validB = true) : (applyOp db (Op.update n u)).WF := by
  simp only [applyOp]
  cases hfind : findRow db.items n with
  | none => simpa [update_item, hfind] using h
  | some row =>
      cases hn : u.name with
      | unset =>
          have hrow := h.2.2 row (findRow_some_mem hfind)
          simp only [update_item, hfind, hn]
          exact WF_replace h hfind hrow.2.2 _
      | set v =>
          cases v with
          | none => simpa [update_item, hfind, hn] using h
          | some s =>
              have hs : 1 ≤ s.length := by
                simp only [ItemUpdate.validB, hn, Bool.and_eq_true,
                  decide_eq_true_eq] at hu
                exact hu.1.1
              simp only [update_item, hfind, hn]
              exact WF_replace h hfind hs _

theorem WF_delete {db : DB} (h : db.WF) (n : Nat) :
    (applyOp db (Op.delete n)).WF := by
  simp only [applyOp, delete_item]
  cases hfind : findRow db.items n with
  | none => simpa using h
  | some row =>
      obtain ⟨h1, h2, h3⟩ := h
      refine ⟨h1, ?_, ?_⟩
      · exact List.Pairwise.sublist
          ((List.filter_sublist db.items).map ItemModel.id) h2
      · intro it hit
        exact h3 it (List.mem_filter.mp hit).1

theorem WF_applyOp {db : DB} (h : db.WF) {op : Op} (hop : op.validB = true) :
    (applyOp db op).WF := by
  cases op with
  | create c => exact WF_create h hop
  | update n u => exact WF_update h hop
  | delete n => exact WF_delete h n

theorem WF_foldl {db : DB} (h : db.WF) {ops : List Op}
    (hops : ∀ op ∈ ops, op.validB = true) : (ops.foldl applyOp db).WF := by
  induction ops generalizing db with
  | nil => simpa using h
  | cons op ops ih =>
      rw [List.foldl_cons]
      exact ih (WF_applyOp h (hops op (List.mem_cons_self op ops)))
        (fun o ho => hops o (List.mem_cons_of_mem op ho))

theorem WF_runOps {ops : List Op} (hops : ∀ op ∈ ops, op.validB = true) :
    (runOps ops).WF :=
  WF_foldl WF_emptyDB hops

/-! ### The id sequence along a trace -/

theorem nextId_applyOp (db : DB) (op : Op) :
    db.nextId ≤ (applyOp db op).nextId := by
  cases op with
  | create c => exact Nat.le_succ _
  | update n u =>
      simp only [applyOp]
      cases hfind : findRow db.items n with
      | none => simp [update_item, hfind]
      | some row =>
          cases hn : u.name with
          | unset => simp [update_item, hfind, hn, replaceState]
          | set v =>
              cases v with
              | none => simp [update_item, hfind, hn]
              | some s => simp [update_item, hfind, hn, replaceState]
  | delete n =>
      simp only [applyOp, delete_item]
      cases hfind : findRow db.items n with
      | none => simp
      | some row => simp

theorem nextId_foldl (db : DB) (ops : List Op) :
    db.nextId ≤ (ops.foldl applyOp db).nextId := by
  induction ops generalizing db with
  | nil => simp
  | cons op ops ih =>
      rw [List.foldl_cons]
      exact Nat.le_trans (nextId_applyOp db op) (ih _)

theorem assignedIdsFrom_lower (db : DB) (ops : List Op) :
    ∀ x ∈ assignedIdsFrom db ops, db.nextId ≤ x := by
  induction ops generalizing db with
  | nil => simp [assignedIdsFrom]
  | cons op ops ih =>
      intro x hx
      cases op with
      | create c =>
          simp only [assignedIdsFrom, List.mem_cons] at hx
          rcases hx with rfl | hx
          · exact Nat.le_refl _
          · exact Nat.le_trans (nextId_applyOp db _) (ih _ x hx)
      | update n u =>
          simp only [assignedIdsFrom] at hx
          exact Nat.le_trans (nextId_applyOp db _) (ih _ x hx)
      | delete n =>
          simp only [assignedIdsFrom] at hx
          exact Nat.le_trans (nextId_applyOp db _) (ih _ x hx)

theorem assignedIdsFrom_upper (db : DB) (ops : List Op) :
    ∀ x ∈ assignedIdsFrom db ops, x < (ops.foldl applyOp db).nextId := by
  induction ops generalizing db with
  | nil => simp [assignedIdsFrom]
  | cons op ops ih =>
      intro x hx
      rw [List.foldl_cons]
      cases op with
      | create c =>
          simp only [assignedIdsFrom, List.mem_cons] at hx
          rcases hx with rfl | hx
          · exact Nat.lt_of_lt_of_le (Nat.lt_succ_self _)
              (nextId_foldl (applyOp db (Op.create c)) ops)
          · exact ih _ x hx
      | update n u =>
          simp only [assignedIdsFrom] at hx
          exact ih _ x hx
      | delete n =>
          simp only [assignedIdsFrom] at hx
          exact ih _ x hx

theorem assignedIdsFrom_pairwise (db : DB) (ops : List Op) :
    (assignedIdsFrom db ops).Pairwise (· < ·) := by
  induction ops generalizing db with
  | nil => simp [assignedIdsFrom]
  | cons op ops ih =>
      cases op with
      | create c =>
          simp only [assignedIdsFrom]
          refine List.Pairwise.cons ?_ (ih _)
          intro x hx
          have h1 := assignedIdsFrom_lower (applyOp db (Op.create c)) ops x hx
          exact Nat.lt_of_lt_of_le (Nat.lt_succ_self _) h1
      | update n u => simpa only [assignedIdsFrom] using ih _
      | delete n => simpa only [assignedIdsFrom] using ih _

/-! ### The `ORDER BY id` stage -/

theorem insertionSort_eq_of_WF {db : DB} (h : db.WF) :
    List.insertionSort idLE db.items = db.items := by
  apply List.Sorted.insertionSort_eq
  have h2 := h.2.1
  rw [List.pairwise_map] at h2
  exact h2.imp (fun hab => Nat.le_of_lt hab)

theorem get_all_items_eq {db : DB} (h : db.WF) :
    get_all_items db = db.items.map ItemModel.toResponse := by
  rw [get_all_items, insertionSort_eq_of_WF h]

/-! ### The no-op update -/

theorem update_noop {db : DB} (h : db.WF) {item_id : Nat} {r : ItemResponse}
    (hr : get_item_by_id db item_id = some r) :
    update_item db item_id ⟨FieldUpd.unset, FieldUpd.unset⟩ = .ok (some r, db) := by
  obtain ⟨row, hfind, hres⟩ : ∃ row, findRow db.items item_id = some row ∧
      row.toResponse = r := by
    cases hf : findRow db.items item_id with
    | none => simp [get_item_by_id, hf] at hr
    | some row =>
        exact ⟨row, rfl, by simpa [get_item_by_id, hf] using hr⟩
  simp only [update_item, hfind, replaceState]
  have hmap : (db.items.map fun it =>
      if it.id == item_id then (⟨row.id, row.name, row.description⟩ : ItemModel)
      else it) = db.items := by
    conv_rhs => rw [← List.map_id db.items]
    refine List.map_congr_left (fun it hit => ?_)
    by_cases hc : it.id = item_id
    · have : it = row := findRow_unique h.2.1 hfind it hit hc
      subst this
      simp
    · simp [show (it.id == item_id) = false by simpa using hc]
  rw [hmap, ← hres]

/-- Observable effect of a successful field assignment: looking the id up in
the mutated state yields the new row's view, every other id reads as before,
and the id sequence is unchanged. -/
theorem replaceState_lookup {db : DB} {item_id : Nat} {row : ItemModel}
    (hfind : findRow db.items item_id = some row) (nm : String)
    (ds : Option String) :
    get_item_by_id (replaceState db item_id ⟨row.id, nm, ds⟩) item_id
        = some (ItemModel.toResponse ⟨row.id, nm, ds⟩) ∧
    (∀ j : Nat, j ≠ item_id →
        get_item_by_id (replaceState db item_id ⟨row.id, nm, ds⟩) j
          = get_item_by_id db j) ∧
    (replaceState db item_id ⟨row.id, nm, ds⟩).nextId = db.nextId := by
  have h0 := findRow_some_id hfind
  have hid : (⟨row.id, nm, ds⟩ : ItemModel).id = item_id := h0
  refine ⟨?_, ?_, rfl⟩
  · simp only [get_item_by_id, replaceState]
    rw [findRow_replace_some hfind hid]
    rfl
  · intro j hj
    simp only [get_item_by_id, replaceState]
    rw [findRow_replace_other hj hid]

/-! ### Claim theorems -/

/-- Claim C1: for every repository state and every valid query (limit 1..100,
offset at least 0, optional name), `GET /items` first fetches the full
id-ordered list, then — when `name` is supplied and not blank — keeps exactly
the items whose name contains the filter text case-insensitively, and then
returns the slice `[offset, offset+limit)` of the filtered sequence; with 15
items `item-1`..`item-15`, filter `name=item`, `limit=5`, `offset=10`,
exactly items 11–15 are returned. -/
theorem C1_get_items_filter_then_slice :
    (∀ (db : DB) (limit offset : Nat) (name : Option String),
        1 ≤ limit → limit ≤ 100 →
        get_items db limit offset name =
          ((applyNameFilter name (get_all_items db)).drop offset).take limit) ∧
    (∀ (n : String) (items : List ItemResponse) (it : ItemResponse),
        pyStrip n ≠ "" →
        (it ∈ applyNameFilter (some n) items ↔
          it ∈ items ∧ nameMatches n it.name = true)) ∧
    (∀ (n : String) (items : List ItemResponse),
        pyStrip n = "" → applyNameFilter (some n) items = items) ∧
    get_items db15 5 10 (some "item") =
      [⟨11, "item-11", none⟩, ⟨12, "item-12", none⟩, ⟨13, "item-13", none⟩,
       ⟨14, "item-14", none⟩, ⟨15, "item-15", none⟩] := by
  refine ⟨?_, ?_, ?_, by decide⟩
  · intro db limit offset name _ _
    cases name <;> simp [get_items, applyNameFilter]
  · intro n items it hn
    simp [applyNameFilter, hn, List.mem_filter]
  · intro n items hn
    simp [applyNameFilter, hn]

/-- Witness for C1 at a concrete query on the three-item database. -/
theorem C1_witness :
    get_items dbW 10 0 (some "APP") =
      ((applyNameFilter (some "APP") (get_all_items dbW)).drop 0).take 10 :=
  C1_get_items_filter_then_slice.1 dbW 10 0 (some "APP") (by decide) (by decide)

/-- Claim C2: the unit-of-work provider commits when the scoped body completes
normally, rolls back and re-raises the same error unchanged when any
exception propagates out of the body (never issuing a commit on that path),
and on every exit path closes the session as its last action before control
returns. -/
theorem C2_unit_of_work_contract {ε α : Type} (commitErr : Option ε)
    (body : Except ε α) :
    (∀ a : α, body = .ok a → commitErr = none →
        get_db commitErr body =
          (.ok a, [SessionEvent.commit, SessionEvent.close])) ∧
    (∀ e : ε, body = .error e →
        get_db commitErr body =
          (.error e, [SessionEvent.rollback, SessionEvent.close]) ∧
        SessionEvent.commit ∉ (get_db commitErr body).2) ∧
    (get_db commitErr body).2.getLast? = some SessionEvent.close := by
  refine ⟨?_, ?_, ?_⟩
  · intro a ha hc
    rw [ha, hc]
    rfl
  · intro e he
    rw [he]
    exact ⟨rfl, by simp [get_db]⟩
  · cases body with
    | ok a => cases commitErr <;> rfl
    | error e => rfl

/-- Witness for C2 with a successful body and a failing body. -/
theorem C2_witness :
    get_db (none : Option Unit) (Except.ok (3 : Nat)) =
      (Except.ok 3, [SessionEvent.commit, SessionEvent.close]) ∧
    get_db (none : Option Unit) (Except.error (() : Unit) : Except Unit Nat) =
      (Except.error (), [SessionEvent.rollback, SessionEvent.close]) :=
  ⟨(C2_unit_of_work_contract none (Except.ok 3)).1 3 rfl rfl,
   ((C2_unit_of_work_contract none (Except.error ())).2.1 () rfl).1⟩

/-- Claim C3: for every id and every partial update input of the data model,
`update_item` returns the not-found sentinel without mutating anything when
the id is absent; when it is present it assigns exactly the explicitly
supplied fields (omitted fields keep their stored values), returns the
refreshed view, leaves every other record untouched, and does not move the id
sequence. -/
theorem C3_update_applies_supplied_fields (db : DB) (item_id : Nat)
    (u : ItemUpdate) (hdb : db.WF) (hu : u.specValid = true) :
    (get_item_by_id db item_id = none →
        update_item db item_id u = .ok (none, db)) ∧
    (∀ r : ItemResponse, get_item_by_id db item_id = some r →
        ∃ db' : DB,
          update_item db item_id u = .ok (some (appliedView r u), db') ∧
          get_item_by_id db' item_id = some (appliedView r u) ∧
          (∀ j : Nat, j ≠ item_id →
              get_item_by_id db' j = get_item_by_id db j) ∧
          db'.nextId = db.nextId) := by
  constructor
  · intro hr
    have hfind : findRow db.items item_id = none := by
      cases hf : findRow db.items item_id with
      | none => rfl
      | some row => simp [get_item_by_id, hf] at hr
    simp [update_item, hfind]
  · intro r hr
    obtain ⟨row, hfind, hres⟩ : ∃ row, findRow db.items item_id = some row ∧
        row.toResponse = r := by
      cases hf : findRow db.items item_id with
      | none => simp [get_item_by_id, hf] at hr
      | some row => exact ⟨row, rfl, by simpa [get_item_by_id, hf] using hr⟩
    have hrid : r.id = row.id := by rw [← hres]; rfl
    have hrname : r.name = row.name := by rw [← hres]; rfl
    have hrdesc : r.description = row.description := by rw [← hres]; rfl
    cases hn : u.name with
    | unset =>
        obtain ⟨g1, g2, g3⟩ := replaceState_lookup hfind row.name
          (match u.description with
           | FieldUpd.unset => row.description
           | FieldUpd.set v => v)
        have happ : appliedView r u = ItemModel.toResponse
            ⟨row.id, row.name,
             match u.description with
             | FieldUpd.unset => row.description
             | FieldUpd.set v => v⟩ := by
          cases hd : u.description <;>
            simp [appliedView, hn, hd, hrid, hrname, hrdesc, ItemModel.toResponse]
        refine ⟨_, ?_, ?_, g2, g3⟩
        · rw [happ]
          simp only [update_item, hfind, hn]
        · rw [happ]
          exact g1
    | set v =>
        cases v with
        | none =>
            rw [ItemUpdate.specValid, hn] at hu
            simp at hu
        | some s =>
            obtain ⟨g1, g2, g3⟩ := replaceState_lookup hfind s
              (match u.description with
               | FieldUpd.unset => row.description
               | FieldUpd.set v => v)
            have happ : appliedView r u = ItemModel.toResponse
                ⟨row.id, s,
                 match u.description with
                 | FieldUpd.unset => row.description
                 | FieldUpd.set v => v⟩ := by
              cases hd : u.description <;>
                simp [appliedView, hn, hd, hrid, hrname, hrdesc,
                  ItemModel.toResponse]
            refine ⟨_, ?_, ?_, g2, g3⟩
            · rw [happ]
              simp only [update_item, hfind, hn]
            · rw [happ]
              exact g1

/-- Witness for C3: updating an absent id returns the sentinel and leaves the
state unchanged. -/
theorem C3_witness :
    update_item dbW 5 ⟨FieldUpd.set (some "x"), FieldUpd.unset⟩ =
      .ok (none, dbW) :=
  (C3_update_applies_supplied_fields dbW 5
      ⟨FieldUpd.set (some "x"), FieldUpd.unset⟩
      (by unfold DB.WF; exact ⟨by decide, by decide, by decide⟩)
      (by decide)).1 (by decide)

/-- Claim C4: `delete_item` checks existence first: an absent id yields the
`false` sentinel with no mutation; a present id yields `true` and removes
exactly that record (every other id still reads as before and the id sequence
does not move).  Afterwards — and for an already-absent id — looking the id up
yields not-found. -/
theorem C4_delete_then_get (db : DB) (item_id : Nat) (hdb : db.WF) :
    (get_item_by_id db item_id = none →
        delete_item db item_id = (false, db)) ∧
    (∀ r : ItemResponse, get_item_by_id db item_id = some r →
        (delete_item db item_id).1 = true ∧
        ∃ row : ItemModel, row.toResponse = r ∧
          db.items.Perm (row :: (delete_item db item_id).2.items) ∧
          (delete_item db item_id).2.nextId = db.nextId) ∧
    (∀ j : Nat, j ≠ item_id →
        get_item_by_id (delete_item db item_id).2 j = get_item_by_id db j) ∧
    get_item_by_id (delete_item db item_id).2 item_id = none := by
  refine ⟨?_, ?_, ?_, ?_⟩
  · intro hr
    have hfind : findRow db.items item_id = none := by
      cases hf : findRow db.items item_id with
      | none => rfl
      | some row => simp [get_item_by_id, hf] at hr
    simp [delete_item, hfind]
  · intro r hr
    obtain ⟨row, hfind, hres⟩ : ∃ row, findRow db.items item_id = some row ∧
        row.toResponse = r := by
      cases hf : findRow db.items item_id with
      | none => simp [get_item_by_id, hf] at hr
      | some row => exact ⟨row, rfl, by simpa [get_item_by_id, hf] using hr⟩
    refine ⟨by simp [delete_item, hfind], row, hres, ?_, by simp [delete_item, hfind]⟩
    have hperm := List.filter_append_perm (fun it => it.id == item_id) db.items
    rw [filter_eq_single hdb.2.1 hfind] at hperm
    simp only [delete_item, hfind]
    exact hperm.symm
  · intro j hj
    cases hfind : findRow db.items item_id with
    | none => simp [delete_item, hfind]
    | some row =>
        simp only [delete_item, hfind, get_item_by_id]
        rw [findRow_filter_other hj]
  · cases hfind : findRow db.items item_id with
    | none => simp [delete_item, hfind, get_item_by_id, hfind]
    | some row =>
        simp only [delete_item, hfind, get_item_by_id]
        rw [findRow_filter_self]
        rfl

/-- Witness for C4: deleting id 2 from the concrete database succeeds and a
subsequent lookup of id 2 yields not-found. -/
theorem C4_witness :
    get_item_by_id (delete_item dbW 2).2 2 = none :=
  (C4_delete_then_get dbW 2
      (by unfold DB.WF; exact ⟨by decide, by decide, by decide⟩)).2.2.2

/-- Claim C5: after any trace of schema-valid operations, creating an item
with a valid input assigns a positive id that was never previously handed out
by the id sequence (in particular it differs from every id currently or
previously stored, deletions included), and looking the new id up returns
exactly the view that `create_item` returned. -/
theorem C5_create_fresh_id (ops : List Op)
    (hops : ∀ op ∈ ops, op.validB = true) (c : ItemCreate)
    (hc : c.validB = true) :
    1 ≤ (create_item (runOps ops) c).1.id ∧
    (create_item (runOps ops) c).1.id ∉ assignedIds ops ∧
    (∀ it ∈ (runOps ops).items, it.id ≠ (create_item (runOps ops) c).1.id) ∧
    get_item_by_id (create_item (runOps ops) c).2
        (create_item (runOps ops) c).1.id =
      some (create_item (runOps ops) c).1 := by
  have hwf := WF_runOps hops
  have hid : (create_item (runOps ops) c).1.id = (runOps ops).nextId := rfl
  refine ⟨?_, ?_, ?_, ?_⟩
  · rw [hid]
    exact hwf.1
  · rw [hid]
    intro hmem
    exact Nat.lt_irrefl _ (assignedIdsFrom_upper emptyDB ops _ hmem)
  · intro it hit
    rw [hid]
    exact Nat.ne_of_lt ((hwf.2.2 it hit).2.1)
  · rw [hid]
    simp only [get_item_by_id, create_item]
    rw [findRow_append_of_lt (fun it hit => (hwf.2.2 it hit).2.1) rfl]
    rfl

/-- Witness for C5 on a concrete trace containing a deletion. -/
theorem C5_witness :
    (create_item (runOps opsW) cW).1.id ∉ assignedIds opsW :=
  (C5_create_fresh_id opsW (by decide) cW (by decide)).2.1

/-- Claim C6: the repository list operation returns all persisted items —
no filtering and no pagination, one response per stored row — in strictly
ascending id order, and returns the empty sequence on the empty table. -/
theorem C6_list_all_ascending (db : DB) (hdb : db.WF) :
    (get_all_items db).Pairwise (fun a b => a.id < b.id) ∧
    (get_all_items db).Perm (db.items.map ItemModel.toResponse) ∧
    get_all_items emptyDB = [] := by
  refine ⟨?_, ?_, rfl⟩
  · rw [get_all_items_eq hdb, List.pairwise_map]
    have h2 := hdb.2.1
    rw [List.pairwise_map] at h2
    exact h2
  · rw [get_all_items_eq hdb]

/-- Witness for C6 on the concrete three-item database. -/
theorem C6_witness :
    (get_all_items dbW).Pairwise (fun a b => a.id < b.id) :=
  (C6_list_all_ascending dbW
      (by unfold DB.WF; exact ⟨by decide, by decide, by decide⟩)).1

/-- Claim C7: updating an existing item with the empty partial input (no
fields supplied) is a no-op on the data — the state is unchanged, stored
fields included — and still returns the current record. -/
theorem C7_empty_update_noop (db : DB) (item_id : Nat) (r : ItemResponse)
    (hdb : db.WF) (hr : get_item_by_id db item_id = some r) :
    update_item db item_id ⟨FieldUpd.unset, FieldUpd.unset⟩ =
      .ok (some r, db) :=
  update_noop hdb hr

/-- Witness for C7 at id 1 of the concrete database. -/
theorem C7_witness :
    update_item dbW 1 ⟨FieldUpd.unset, FieldUpd.unset⟩ =
      .ok (some ⟨1, "Apple", some "red"⟩, dbW) :=
  C7_empty_update_noop dbW 1 ⟨1, "Apple", some "red"⟩
    (by unfold DB.WF; exact ⟨by decide, by decide, by decide⟩) (by decide)

/-- Claim C8: a request with a non-positive `{id}` on `GET`/`PUT`/`DELETE`
`/items/{id}`, an out-of-range `limit`/`offset` on `GET /items`, or a
`POST /items` body violating the field constraints, is rejected with 422
before any repository or storage access (the outcome does not depend on the
database state and the state is not mutated), and this outcome is distinct
from not-found: `GET /items/0` and `GET` of `/items` with id `-1` give 422,
never 404. -/
theorem C8_validation_before_storage :
    (∀ (db db2 : DB) (i : Int), i < 1 →
        get_item_route db i = RouteResult.err 422 ∧
        get_item_route db i = get_item_route db2 i ∧
        (∀ u : ItemUpdate, update_item_route db i u = (RouteResult.err 422, db)) ∧
        delete_item_route db i = (RouteResult.err 422, db)) ∧
    (∀ (db : DB) (limit offset : Int) (nm : Option String),
        limit < 1 ∨ 100 < limit ∨ offset < 0 →
        get_items_route db limit offset nm = RouteResult.err 422) ∧
    (∀ (db : DB) (body : RawItemCreate), parseItemCreate body = none →
        create_item_route db body = (RouteResult.err 422, db)) ∧
    (∀ db : DB,
        get_item_route db 0 = RouteResult.err 422 ∧
        get_item_route db (-1) = RouteResult.err 422 ∧
        get_item_route db 0 ≠ RouteResult.err 404 ∧
        get_item_route db (-1) ≠ RouteResult.err 404) := by
  refine ⟨?_, ?_, ?_, ?_⟩
  · intro db db2 i hi
    refine ⟨?_, ?_, ?_, ?_⟩ <;>
      simp [get_item_route, update_item_route, delete_item_route, hi]
  · intro db limit offset nm h
    rcases h with h | h | h <;> simp [get_items_route, h]
  · intro db body h
    simp [create_item_route, h]
  · intro db
    refine ⟨?_, ?_, ?_, ?_⟩ <;> simp [get_item_route]

/-- Witness for C8 at `id = 0` and an out-of-range limit. -/
theorem C8_witness :
    get_item_route dbW 0 = RouteResult.err 422 ∧
    get_items_route dbW 101 0 none = RouteResult.err 422 :=
  ⟨(C8_validation_before_storage.1 dbW emptyDB 0 (by decide)).1,
   C8_validation_before_storage.2.1 dbW 101 0 none (by decide)⟩

/-- Claim C9: after any sequence of schema-valid create, update and delete
operations from the fresh schema, the state is well-formed: the ids handed
out by the sequence are strictly increasing — so each id is assigned exactly
once and never reused, deletions included — future assignments stay fresh,
and every persisted record has a non-empty (non-null) name. -/
theorem C9_data_model_invariants (ops : List Op)
    (hops : ∀ op ∈ ops, op.validB = true) :
    (runOps ops).WF ∧
    (assignedIds ops).Pairwise (· < ·) ∧
    (assignedIds ops).Nodup ∧
    (∀ x ∈ assignedIds ops, x < (runOps ops).nextId) ∧
    (∀ it ∈ (runOps ops).items, 1 ≤ it.name.length) := by
  have hwf := WF_runOps hops
  have hpw := assignedIdsFrom_pairwise emptyDB ops
  exact ⟨hwf, hpw, hpw.imp (fun h => Nat.ne_of_lt h),
    assignedIdsFrom_upper emptyDB ops,
    fun it hit => (hwf.2.2 it hit).2.2⟩

/-- Witness for C9 on a concrete trace with a create–delete–create–update
history. -/
theorem C9_witness :
    (assignedIds opsW).Nodup :=
  (C9_data_model_invariants opsW (by decide)).2.2.1

/-- Claim C10: in the update operation, a `description` explicitly supplied
as null clears the stored description, while omitting the field leaves the
stored description unchanged — the two inputs are observably different
whenever the record has a description. -/
theorem C10_explicit_null_vs_omitted (db : DB) (item_id : Nat)
    (r : ItemResponse) (hdb : db.WF) (hr : get_item_by_id db item_id = some r) :
    (∃ db' : DB,
        update_item db item_id ⟨FieldUpd.unset, FieldUpd.set none⟩ =
          .ok (some ⟨r.id, r.name, none⟩, db') ∧
        get_item_by_id db' item_id = some ⟨r.id, r.name, none⟩) ∧
    update_item db item_id ⟨FieldUpd.unset, FieldUpd.unset⟩ =
      .ok (some r, db) ∧
    (r.description ≠ none →
        update_item db item_id ⟨FieldUpd.unset, FieldUpd.set none⟩ ≠
          update_item db item_id ⟨FieldUpd.unset, FieldUpd.unset⟩) := by
  obtain ⟨row, hfind, hres⟩ : ∃ row, findRow db.items item_id = some row ∧
      row.toResponse = r := by
    cases hf : findRow db.items item_id with
    | none => simp [get_item_by_id, hf] at hr
    | some row => exact ⟨row, rfl, by simpa [get_item_by_id, hf] using hr⟩
  have hrid : r.id = row.id := by rw [← hres]; rfl
  have hrname : r.name = row.name := by rw [← hres]; rfl
  have hnull : update_item db item_id ⟨FieldUpd.unset, FieldUpd.set none⟩ =
      .ok (some ⟨r.id, r.name, none⟩, replaceState db item_id ⟨row.id, row.name, none⟩) := by
    simp only [update_item, hfind]
    rw [hrid, hrname]
    rfl
  have hnoop : update_item db item_id ⟨FieldUpd.unset, FieldUpd.unset⟩ =
      .ok (some r, db) := update_noop hdb hr
  obtain ⟨g1, g2, g3⟩ := replaceState_lookup hfind row.name (none : Option String)
  refine ⟨⟨replaceState db item_id ⟨row.id, row.name, none⟩, hnull, ?_⟩, hnoop, ?_⟩
  · rw [g1]
    simp [ItemModel.toResponse, hrid, hrname]
  · intro hd heq
    rw [hnull, hnoop] at heq
    have : (⟨r.id, r.name, none⟩ : ItemResponse) = r := by
      have h1 := congrArg (fun x => match x with
        | Except.ok (some v, _) => v
        | _ => (⟨0, "", none⟩ : ItemResponse)) heq
      simpa using h1
    rw [← this] at hd
    exact hd rfl

/-- Witness for C10 at id 1 of the concrete database, whose description is
set. -/
theorem C10_witness :
    update_item dbW 1 ⟨FieldUpd.unset, FieldUpd.set none⟩ ≠
      update_item dbW 1 ⟨FieldUpd.unset, FieldUpd.unset⟩ :=
  (C10_explicit_null_vs_omitted dbW 1 ⟨1, "Apple", some "red"⟩
      (by unfold DB.WF; exact ⟨by decide, by decide, by decide⟩)
      (by decide)).2.2 (by decide)

end ItemsAPI
